import Mathlib

/-!
Verification development for the `image_gen` repository: a batch utility
(`src/generate.js`, plus an older variant kept as an unnamed source file) that
sends prompts to a generative-image API, extracts the returned image payload
from a loosely structured response, post-processes it and writes it to disk,
together with a credential-inspection script (`src/check-creds.js`).

JavaScript strings are modelled as `List Char`, JSON-like values as the
inductive `JVal` (a missing key plays the role of `undefined`), and the
external collaborators (generation API, sharp image library) as explicit
per-entry outcome records.  All definitions are transcribed from the source.
-/

/-- Shorthand: the character list of a string literal. -/
def strL (s : String) : List Char := s.data

/-- JavaScript `String.prototype.toLowerCase` restricted to the ASCII range,
which is all the source ever feeds it. -/
def lowerL (s : List Char) : List Char := s.map Char.toLower

/-- JSON-like values as delivered by the generation API.  Object fields are
kept in enumeration order; a key absent from the list corresponds to the
JavaScript `undefined`. -/
inductive JVal : Type where
  | null : JVal
  | bool (b : Bool) : JVal
  | num (n : Int) : JVal
  | str (s : List Char) : JVal
  | arr (xs : List JVal) : JVal
  | obj (fields : List (List Char × JVal)) : JVal

/-- First binding of a key in an object's field list (JavaScript property
lookup; objects produced by JSON never repeat a key). -/
def lookupField (fields : List (List Char × JVal)) (k : List Char) : Option JVal :=
  match fields with
  | [] => none
  | (k', v) :: rest => if k' = k then some v else lookupField rest k

/-- The media-type marker every image payload must carry. -/
def imgMime : List Char := strL "image/"

def inlineDataKey : List Char := strL "inlineData"

def mimeTypeKey : List Char := strL "mimeType"

/-- The predicate of the structural search in `src/generate.js` lines 90-92:
`node.inlineData && typeof node.inlineData.mimeType === 'string' &&
node.inlineData.mimeType.startsWith('image/')`.  Only an object whose
`inlineData` field is itself an object with a string `mimeType` beginning with
`image/` matches; every other value (including a truthy non-object
`inlineData`, whose `.mimeType` is `undefined`) yields `false`. -/
def isImageNode : JVal → Bool
  | .obj fields =>
    match lookupField fields inlineDataKey with
    | some (.obj inner) =>
      match lookupField inner mimeTypeKey with
      | some (.str s) => imgMime.isPrefixOf s
      | _ => false
    | _ => false
  | _ => false

mutual

/-- `findImagePart` from `src/generate.js` lines 82-103: depth-bounded
recursive search.  A falsy node or a depth above 8 returns nothing; arrays are
searched element by element; an object is tested against `isImageNode` before
its field values are searched in enumeration order. -/
def findImagePart (node : JVal) (depth : Nat) : Option JVal :=
  if depth > 8 then none
  else
    match node with
    | .arr xs => findImagePartArr xs depth
    | .obj fields =>
      if isImageNode (.obj fields) then some (.obj fields)
      else findImagePartFields fields depth
    | _ => none

/-- The `for (const item of node)` loop of `findImagePart` over an array's
elements, each searched at `depth + 1`. -/
def findImagePartArr (xs : List JVal) (depth : Nat) : Option JVal :=
  match xs with
  | [] => none
  | x :: rest =>
    match findImagePart x (depth + 1) with
    | some r => some r
    | none => findImagePartArr rest depth

/-- The `for (const key of Object.keys(node))` loop of `findImagePart` over an
object's field values, each searched at `depth + 1`. -/
def findImagePartFields (fields : List (List Char × JVal)) (depth : Nat) : Option JVal :=
  match fields with
  | [] => none
  | (_, v) :: rest =>
    match findImagePart v (depth + 1) with
    | some r => some r
    | none => findImagePartFields rest depth

end

example : findImagePart (.obj [(inlineDataKey, .obj [(mimeTypeKey, .str (strL "image/png"))])]) 0
    = some (.obj [(inlineDataKey, .obj [(mimeTypeKey, .str (strL "image/png"))])]) := by
  simp [findImagePart, isImageNode, lookupField, imgMime, inlineDataKey, mimeTypeKey,
    List.isPrefixOf, strL]

/-! ### Specification-side description of the structural search

The spec describes the fallback search as: visit the response's nodes in
depth-first pre-order (array elements in index order, object keys in
enumeration order), never deeper than depth 8, and return the first node
satisfying the image predicate.  `visitedNodes` builds that visit order
explicitly; the refinement lemma below proves `findImagePart` returns exactly
the first match of `isImageNode` along it. -/

mutual

/-- Depth-bounded pre-order list of the nodes visited when the search starts
at `v` with depth counter `d`: the node itself first, then its children (array
elements in index order, object values in key-enumeration order) at `d + 1`;
nothing at all beyond depth 8. -/
def visitedNodes (v : JVal) (d : Nat) : List JVal :=
  if d > 8 then []
  else
    v :: (match v with
      | .arr xs => visitedArr xs d
      | .obj fields => visitedFields fields d
      | _ => [])

def visitedArr (xs : List JVal) (d : Nat) : List JVal :=
  match xs with
  | [] => []
  | x :: rest => visitedNodes x (d + 1) ++ visitedArr rest d

def visitedFields (fields : List (List Char × JVal)) (d : Nat) : List JVal :=
  match fields with
  | [] => []
  | (_, v) :: rest => visitedNodes v (d + 1) ++ visitedFields rest d

end

/-- Induction principle for `JVal` exposing the element-wise hypotheses of the
nested lists. -/
theorem JVal.ind (P : JVal → Prop)
    (hnull : P .null) (hbool : ∀ b, P (.bool b)) (hnum : ∀ n, P (.num n))
    (hstr : ∀ s, P (.str s))
    (harr : ∀ xs, (∀ x ∈ xs, P x) → P (.arr xs))
    (hobj : ∀ fields, (∀ kv ∈ fields, P kv.2) → P (.obj fields)) :
    ∀ v, P v
  | .null => hnull
  | .bool b => hbool b
  | .num n => hnum n
  | .str s => hstr s
  | .arr xs =>
    harr xs (fun x _ => JVal.ind P hnull hbool hnum hstr harr hobj x)
  | .obj fields =>
    hobj fields (fun kv _ => JVal.ind P hnull hbool hnum hstr harr hobj kv.2)
termination_by v => sizeOf v
decreasing_by
  · have h1 := List.sizeOf_lt_of_mem (by assumption : x ∈ xs)
    simp only [JVal.arr.sizeOf_spec]
    omega
  · have h1 := List.sizeOf_lt_of_mem (by assumption : kv ∈ fields)
    have h2 : sizeOf kv.2 < sizeOf kv := by
      obtain ⟨k, v⟩ := kv
      simp
    simp only [JVal.obj.sizeOf_spec]
    omega

lemma findImagePartArr_eq_visited (xs : List JVal) (d : Nat)
    (ih : ∀ x ∈ xs, ∀ d', findImagePart x d' = (visitedNodes x d').find? isImageNode) :
    findImagePartArr xs d = (visitedArr xs d).find? isImageNode := by
  induction xs with
  | nil => simp [findImagePartArr, visitedArr]
  | cons x rest ihr =>
    simp only [findImagePartArr, visitedArr]
    rw [List.find?_append, ← ih x (List.mem_cons_self x rest) (d + 1)]
    cases h : findImagePart x (d + 1) with
    | none =>
      simp only [Option.or]
      exact ihr (fun y hy => ih y (List.mem_cons_of_mem x hy))
    | some r => simp [Option.or]

lemma findImagePartFields_eq_visited (fields : List (List Char × JVal)) (d : Nat)
    (ih : ∀ kv ∈ fields, ∀ d', findImagePart kv.2 d' = (visitedNodes kv.2 d').find? isImageNode) :
    findImagePartFields fields d = (visitedFields fields d).find? isImageNode := by
  induction fields with
  | nil => simp [findImagePartFields, visitedFields]
  | cons kv rest ihr =>
    obtain ⟨k, v⟩ := kv
    simp only [findImagePartFields, visitedFields]
    rw [List.find?_append, ← ih (k, v) (List.mem_cons_self (k, v) rest) (d + 1)]
    cases h : findImagePart v (d + 1) with
    | none =>
      simp only [Option.or]
      exact ihr (fun kv' hkv' => ih kv' (List.mem_cons_of_mem (k, v) hkv'))
    | some r => simp [Option.or]

/-- The structural search is exactly: first `isImageNode` match along the
depth-bounded pre-order visit list. -/
lemma findImagePart_eq_visited (v : JVal) :
    ∀ d, findImagePart v d = (visitedNodes v d).find? isImageNode := by
  induction v using JVal.ind with
  | hnull =>
    intro d
    by_cases h : d > 8 <;> simp [findImagePart, visitedNodes, h, isImageNode]
  | hbool b =>
    intro d
    by_cases h : d > 8 <;> simp [findImagePart, visitedNodes, h, isImageNode]
  | hnum n =>
    intro d
    by_cases h : d > 8 <;> simp [findImagePart, visitedNodes, h, isImageNode]
  | hstr s =>
    intro d
    by_cases h : d > 8 <;> simp [findImagePart, visitedNodes, h, isImageNode]
  | harr xs ih =>
    intro d
    by_cases h : d > 8
    · simp [findImagePart, visitedNodes, h]
    · simp only [findImagePart, visitedNodes, h, if_neg, ite_false]
      rw [List.find?_cons]
      simp only [isImageNode]
      exact findImagePartArr_eq_visited xs d ih
  | hobj fields ih =>
    intro d
    by_cases h : d > 8
    · simp [findImagePart, visitedNodes, h]
    · simp only [findImagePart, visitedNodes, h, if_neg, ite_false]
      rw [List.find?_cons]
      cases him : isImageNode (.obj fields) with
      | true => simp [him]
      | false => simpa [him] using findImagePartFields_eq_visited fields d ih

/-! ### The direct-path lookup (line 75 of `src/generate.js`)

`response.candidates?.[0]?.content?.parts?.find(part =>
part.inlineData?.mimeType?.startsWith('image/'))`.

Optional chaining is modelled on `Option JVal`, where `none` stands for a
short-circuited (`null`/`undefined`) chain value.  A JavaScript step that
would raise a `TypeError` is modelled as the outer `none` of an
`Option (Option JVal)` result; such an exception is caught by the per-entry
`try`/`catch` of the batch loop. -/

def candidatesKey : List Char := strL "candidates"

def contentKey : List Char := strL "content"

def partsKey : List Char := strL "parts"

def dataKey : List Char := strL "data"

/-- `o?.k`: property access behind optional chaining.  `null`/`undefined`
short-circuit; a property of a non-object value named by one of the keys the
source uses is `undefined`. -/
def optProp (o : Option JVal) (k : List Char) : Option JVal :=
  match o with
  | some (.obj fields) => lookupField fields k
  | _ => none

/-- `o?.[0]`: index access behind optional chaining.  Arrays yield their first
element, strings their first character, objects their `"0"` property; other
values (and empty arrays/strings) yield `undefined`. -/
def optIndexZero (o : Option JVal) : Option JVal :=
  match o with
  | some (.arr (x :: _)) => some x
  | some (.str (c :: _)) => some (.str [c])
  | some (.obj fields) => lookupField fields (strL "0")
  | _ => none

/-- The arrow predicate `part.inlineData?.mimeType?.startsWith('image/')` of
the direct-path `find`.  `none` marks the raising cases: a `null` part (plain
property access on `null` throws) and a present, non-`null` non-string
`mimeType` (whose `.startsWith` is not a function). -/
def partPredJS : JVal → Option Bool
  | .null => none
  | .obj fields =>
    match lookupField fields inlineDataKey with
    | some (.obj inner) =>
      match lookupField inner mimeTypeKey with
      | some (.str s) => some (imgMime.isPrefixOf s)
      | some .null => some false
      | none => some false
      | some _ => none
    | _ => some false
  | _ => some false

/-- `Array.prototype.find` over the parts with `partPredJS`, propagating a
raised predicate as the outer `none`. -/
def partsFind (xs : List JVal) : Option (Option JVal) :=
  match xs with
  | [] => some none
  | p :: rest =>
    match partPredJS p with
    | none => none
    | some true => some (some p)
    | some false => partsFind rest

/-- Line 75 of `src/generate.js`: the expected direct path.  The outer `none`
is a raised `TypeError` (a `null` response, a predicate raise, or a `parts`
value that is neither nullish nor an array, on which `.find` is not a
function); the inner option is the found part. -/
def directFind (response : JVal) : Option (Option JVal) :=
  match response with
  | .null => none
  | _ =>
    match optProp (optProp (optIndexZero (optProp (some response) candidatesKey))
        contentKey) partsKey with
    | none => some none
    | some .null => some none
    | some (.arr xs) => partsFind xs
    | some _ => none

/-- Lines 73-106 of `src/generate.js`: try the direct path first; only when it
yields nothing (`if (!imagePart)`) run the recursive structural search from the
response root at depth 0.  The outer `none` again marks a raised `TypeError`,
which the caller's `catch` turns into a per-entry error log. -/
def extractImagePart (response : JVal) : Option (Option JVal) :=
  match directFind response with
  | none => none
  | some (some p) => some (some p)
  | some none => some (findImagePart response 0)

/-! ### Filename resolution (lines 129-144 of `src/generate.js`, lines 92-112
of the unnamed older variant) -/

/-- Decimal rendering of a natural number, as JavaScript string interpolation
of `Date.now()` or `i + 1` produces it. -/
def natStr (n : Nat) : List Char := (Nat.repr n).data

def tsToken : List Char := strL "{timestamp}"

/-- `requestedFilename.replace(/\{timestamp\}/g, `${Date.now()}`)`: left to
right, non-overlapping, every occurrence; the replacement text is not
rescanned. -/
def replaceTimestamp (nowStr : List Char) : List Char → List Char
  | [] => []
  | c :: rest =>
    if tsToken.isPrefixOf (c :: rest) then
      nowStr ++ replaceTimestamp nowStr (List.drop tsToken.length (c :: rest))
    else c :: replaceTimestamp nowStr rest
termination_by l => l.length
decreasing_by
  · simp only [List.length_drop, List.length_cons]
    have ht : tsToken.length = 11 := rfl
    omega
  · simp only [List.length_cons]
    omega

def jpgExt : List Char := strL ".jpg"

/-- `fileName.replace(/\.[^.]+$/, '')`: drop a final dot-plus-nonempty-dotless
extension when there is one, otherwise leave the name unchanged. -/
def stripExt (s : List Char) : List Char :=
  let r := s.reverse
  let ext := r.takeWhile (fun c => c ≠ '.')
  if ext.length = 0 then s
  else
    match r.drop ext.length with
    | [] => s
    | _ :: restR => restR.reverse

/-- Lines 137-140 of `src/generate.js` (identical in the older variant):
`if (!fileName.toLowerCase().endsWith('.jpg')) fileName =
fileName.replace(/\.[^.]+$/, '') + '.jpg'`. -/
def ensureJpg (s : List Char) : List Char :=
  if jpgExt <:+ lowerL s then s else stripExt s ++ jpgExt

example : ensureJpg (strL "regla") = strL "regla.jpg" := by decide
example : ensureJpg (strL "leer") = strL "leer.jpg" := by decide
example : ensureJpg (strL "ruler.png") = strL "ruler.jpg" := by decide
example : ensureJpg (strL "photo.JPG") = strL "photo.JPG" := by decide
example : ensureJpg (strL "a.jpg.png") = strL "a.jpg.jpg" := by decide

/-- Lines 132-140 of `src/generate.js` (and 97-105 of the older variant): the
template branch of filename resolution — substitute the timestamp placeholder
when present, then apply the `.jpg` rule. -/
def templateName (s : List Char) (now : Nat) : List Char :=
  ensureJpg (if tsToken <:+: s then replaceTimestamp (natStr now) s else s)

/-- Filename resolution of `src/generate.js` lines 130-144: an entry-supplied
truthy filename gets timestamp substitution and the `.jpg` rule; otherwise the
default `image_{i+1}_{timestamp}.jpg` is synthesized. -/
def resolveFileNameGen (i : Nat) (req : Option (List Char)) (now : Nat) : List Char :=
  match req with
  | some s =>
    if s ≠ [] then templateName s now
    else strL "image_" ++ natStr (i + 1) ++ strL "_" ++ natStr now ++ jpgExt
  | none => strL "image_" ++ natStr (i + 1) ++ strL "_" ++ natStr now ++ jpgExt

/-- Filename resolution of the older variant (unnamed source file, lines
92-112): as `resolveFileNameGen`, but a configured `SERIAL` is prepended as
`SERIAL_` to a template-derived name unless already present as a prefix, and
inserted between index and timestamp in the synthesized default. -/
def resolveFileNameSerial (serial : List Char) (i : Nat) (req : Option (List Char))
    (now : Nat) : List Char :=
  let serialSegment := if serial ≠ [] then serial ++ strL "_" else []
  match req with
  | some s =>
    if s ≠ [] then
      let f2 := templateName s now
      if serial ≠ [] ∧ ¬ (serial ++ strL "_") <+: f2 then serial ++ strL "_" ++ f2 else f2
    else strL "image_" ++ natStr (i + 1) ++ strL "_" ++ serialSegment ++ natStr now ++ jpgExt
  | none => strL "image_" ++ natStr (i + 1) ++ strL "_" ++ serialSegment ++ natStr now ++ jpgExt

lemma lowerL_append (a b : List Char) : lowerL (a ++ b) = lowerL a ++ lowerL b :=
  List.map_append Char.toLower a b

lemma jpg_suffix_lower_append (s : List Char) : jpgExt <:+ lowerL (s ++ jpgExt) := by
  rw [lowerL_append]
  have hl : lowerL jpgExt = jpgExt := rfl
  rw [hl]
  exact ⟨lowerL s, rfl⟩

/-- Whatever the input, the extension rule's output ends in `.jpg` up to
ASCII case. -/
lemma ensureJpg_lower_suffix (s : List Char) : jpgExt <:+ lowerL (ensureJpg s) := by
  unfold ensureJpg
  split
  · assumption
  · exact jpg_suffix_lower_append (stripExt s)

/-- Re-applying the extension rule changes nothing. -/
lemma ensureJpg_idem (s : List Char) : ensureJpg (ensureJpg s) = ensureJpg s := by
  have h := ensureJpg_lower_suffix s
  have hunfold : ensureJpg (ensureJpg s)
      = if jpgExt <:+ lowerL (ensureJpg s) then ensureJpg s
        else stripExt (ensureJpg s) ++ jpgExt := rfl
  rw [hunfold, if_pos h]

/-! ### The batch loop (`generateAndSaveImages`, `src/generate.js` lines
36-188)

The two external collaborators of an entry — the generation call and the
sharp image library — are modelled as explicit outcomes in `EntryEnv`; the
console is modelled as the list of emitted `Event`s.  The asynchronous sharp
promise chain of the source settles exactly one of its continuations per
entry, which is what the event list records. -/

/-- One prompt entry: the source supports both plain-string entries and
`{prompt, filename}` objects (lines 52-54). -/
inductive Entry : Type where
  | strEntry (s : List Char) : Entry
  | objEntry (prompt : List Char) (filename : Option (List Char)) : Entry

/-- `typeof entry === 'string' ? null : entry.filename`. -/
def requestedFilenameOf : Entry → Option (List Char)
  | .strEntry _ => none
  | .objEntry _ f => f

/-- Outcomes of the external collaborators for one entry: the generation call
(`ai.models.generateContent`), the dynamic `import('sharp')`, the
resize/flatten/encode chain, and the wall clock read by `Date.now()`. -/
structure EntryEnv : Type where
  gen : Except (List Char) JVal
  sharpLoad : Except (List Char) Unit
  convert : Except (List Char) (List Nat)
  now : Nat

/-- Console/filesystem effects of the batch, in emission order. -/
inductive Event : Type where
  | processing (i : Nat) : Event
  | genError (msg : List Char) : Event
  | warnNotFound : Event
  | sharpLoadError (msg : List Char) : Event
  | convertError (msg : List Char) : Event
  | fileWritten (name : List Char) (bytes : List Nat) : Event
  | completed : Event
deriving DecidableEq

/-- `Buffer.from(base64Data, 'base64')` accepts a string (or an array-like);
any other `inlineData.data` — including a missing one — raises a `TypeError`
that the per-entry `catch` turns into an error log. -/
def dataOk (part : JVal) : Bool :=
  match part with
  | .obj fields =>
    match lookupField fields inlineDataKey with
    | some (.obj inner) =>
      match lookupField inner dataKey with
      | some (.str _) => true
      | some (.arr _) => true
      | _ => false
    | _ => false
  | _ => false

def typeErrorMsg : List Char := strL "TypeError"

/-- Events emitted by one iteration of the loop after its `Procesando` line
(`src/generate.js` lines 59-183): generation error, extraction raise,
extraction miss (warning), `Buffer.from` raise, sharp load failure, conversion
failure, or a written file. -/
def entryEvents (i : Nat) (entry : Entry) (env : EntryEnv) : List Event :=
  match env.gen with
  | .error m => [.genError m]
  | .ok response =>
    match extractImagePart response with
    | none => [.genError typeErrorMsg]
    | some none => [.warnNotFound]
    | some (some part) =>
      if dataOk part then
        match env.sharpLoad with
        | .error m => [.sharpLoadError m]
        | .ok _ =>
          match env.convert with
          | .error m => [.convertError m]
          | .ok bytes =>
            [.fileWritten (resolveFileNameGen i (requestedFilenameOf entry) env.now) bytes]
      else [.genError typeErrorMsg]

/-- One full iteration of the `for` loop: the `Procesando i+1/n` progress line
followed by the entry's outcome events. -/
def processEntry (i : Nat) (entry : Entry) (env : EntryEnv) : List Event :=
  .processing i :: entryEvents i entry env

/-- The whole batch (lines 50-185): every entry in index order, then the
final completion message. -/
def generateAndSaveImages (entries : List Entry) (envs : Nat → EntryEnv) : List Event :=
  ((entries.enum).flatMap (fun p => processEntry p.1 p.2 (envs p.1))) ++ [.completed]

/-! ### The credential inspector (`src/check-creds.js`)

The script prints the environment summary, then — only if the
credentials-file variable is truthy — attempts one read+parse (modelled as a
single `Except` outcome covering both `fs.readFileSync` and `JSON.parse`),
then always prints the closing usage hints. -/

structure CredEnv : Type where
  gac : Option (List Char)
  geminiKey : Option (List Char)
  serial : Option (List Char)

/-- JavaScript truthiness of an environment variable: present and nonempty. -/
def truthyEnv : Option (List Char) → Bool
  | none => false
  | some s => !s.isEmpty

/-- `v || alt`. -/
def displayOr (v : Option (List Char)) (alt : List Char) : List Char :=
  match v with
  | some s => if s ≠ [] then s else alt
  | none => alt

/-- The three summary fields the inspector looks for in the parsed
credentials JSON. -/
structure CredJson : Type where
  project_id : Option (List Char)
  client_email : Option (List Char)
  type : Option (List Char)

inductive CredEvent : Type where
  | envHeader : CredEvent
  | gacLine (v : List Char) : CredEvent
  | keyLine (present : Bool) : CredEvent
  | serialLine (v : List Char) : CredEvent
  | blank : CredEvent
  | readAttempt (path : List Char) : CredEvent
  | summaryHeader : CredEvent
  | projectLine (v : List Char) : CredEvent
  | emailLine (v : List Char) : CredEvent
  | typeLine (v : List Char) : CredEvent
  | readError (msg : List Char) : CredEvent
  | noGacLine : CredEvent
  | hintLine (k : Nat) : CredEvent
deriving DecidableEq

def notSetMsg : List Char := strL "(not set)"

def notFoundMsg : List Char := strL "(not found)"

/-- The whole `src/check-creds.js` script body, in print order.  `keyLine`
carries only the presence bit (`YES`/`NO`), never the key. -/
def checkCreds (env : CredEnv) (fileOutcome : Except (List Char) CredJson) :
    List CredEvent :=
  [.envHeader,
   .gacLine (displayOr env.gac notSetMsg),
   .keyLine (truthyEnv env.geminiKey),
   .serialLine (displayOr env.serial notSetMsg),
   .blank] ++
  (match env.gac with
   | some p =>
     if p ≠ [] then
       .readAttempt p ::
       (match fileOutcome with
        | .error m => [.readError m]
        | .ok j =>
          [.summaryHeader,
           .projectLine (displayOr j.project_id notFoundMsg),
           .emailLine (displayOr j.client_email notFoundMsg),
           .typeLine (displayOr j.type notFoundMsg)])
     else [.noGacLine]
   | none => [.noGacLine]) ++
  [.blank, .hintLine 1, .hintLine 2, .hintLine 3, .hintLine 4]

/-! ### Termination of the structural search on arbitrary (even cyclic) values

JavaScript objects live on a heap and may be cyclic, which the tree type
`JVal` cannot express.  `GNode`/heap `List GNode` model values as nodes
referring to other nodes by index, so cycles are representable, and
`findImagePartFuel` re-runs the same algorithm with an explicit count of
remaining nested-call frames.  Fuel `10 - depth` is always enough (proved
below): the depth counter grows by one per nested call and any call at depth
above 8 — or on a missing/`null` node — returns at once. -/

inductive GNode : Type where
  | gnull : GNode
  | gleaf : GNode
  | gstr (s : List Char) : GNode
  | garr (items : List Nat) : GNode
  | gobj (fields : List (List Char × Nat)) : GNode

/-- First binding of a key among a heap object's fields. -/
def lookupG (fields : List (List Char × Nat)) (k : List Char) : Option Nat :=
  match fields with
  | [] => none
  | (k', j) :: rest => if k' = k then some j else lookupG rest k

/-- The `isImageNode` predicate read off the heap: `inlineData` must refer to
an object whose `mimeType` refers to a string starting with `image/`; a
dangling reference is `undefined` and fails the check. -/
def isImageNodeG (st : List GNode) (fields : List (List Char × Nat)) : Bool :=
  match lookupG fields inlineDataKey with
  | some j =>
    match st[j]? with
    | some (.gobj inner) =>
      match lookupG inner mimeTypeKey with
      | some m =>
        match st[m]? with
        | some (.gstr s) => imgMime.isPrefixOf s
        | _ => false
      | none => false
    | _ => false
  | none => false

mutual

/-- `findImagePart` over the heap, with the number of nested call frames still
allowed made explicit.  A missing reference (`undefined`) or a `null` node is
falsy and returns at once, as does any call at depth above 8. -/
def findImagePartFuel (st : List GNode) : Nat → Nat → Nat → Option Nat
  | 0, _, _ => none
  | fuel + 1, ref, depth =>
    match st[ref]? with
    | none => none
    | some .gnull => none
    | some n =>
      if depth > 8 then none
      else
        match n with
        | .garr items => findFuelArr st fuel items depth
        | .gobj fields =>
          if isImageNodeG st fields then some ref
          else findFuelFields st fuel fields depth
        | _ => none

def findFuelArr (st : List GNode) (fuel : Nat) (items : List Nat) (depth : Nat) :
    Option Nat :=
  match items with
  | [] => none
  | j :: rest =>
    match findImagePartFuel st fuel j (depth + 1) with
    | some r => some r
    | none => findFuelArr st fuel rest depth

def findFuelFields (st : List GNode) (fuel : Nat) (fields : List (List Char × Nat))
    (depth : Nat) : Option Nat :=
  match fields with
  | [] => none
  | (_, j) :: rest =>
    match findImagePartFuel st fuel j (depth + 1) with
    | some r => some r
    | none => findFuelFields st fuel rest depth

end

/-- A call at depth above 8 returns immediately, whatever fuel remains. -/
lemma findFuel_none_of_depth (st : List GNode) (f ref depth : Nat) (h : depth > 8) :
    findImagePartFuel st f ref depth = none := by
  cases f with
  | zero => simp [findImagePartFuel]
  | succ f' =>
    cases hg : st[ref]? with
    | none => simp [findImagePartFuel, hg]
    | some n => cases n <;> simp [findImagePartFuel, hg, h]

lemma findFuelArr_congr (st : List GNode) (f1 f2 d : Nat)
    (h : ∀ j, findImagePartFuel st f1 j (d + 1) = findImagePartFuel st f2 j (d + 1)) :
    ∀ items, findFuelArr st f1 items d = findFuelArr st f2 items d := by
  intro items
  induction items with
  | nil => simp [findFuelArr]
  | cons j rest ih =>
    simp only [findFuelArr]
    rw [h j, ih]

lemma findFuelFields_congr (st : List GNode) (f1 f2 d : Nat)
    (h : ∀ j, findImagePartFuel st f1 j (d + 1) = findImagePartFuel st f2 j (d + 1)) :
    ∀ fields, findFuelFields st f1 fields d = findFuelFields st f2 fields d := by
  intro fields
  induction fields with
  | nil => simp [findFuelFields]
  | cons kv rest ih =>
    obtain ⟨k, j⟩ := kv
    simp only [findFuelFields]
    rw [h j, ih]

/-- Any two fuel budgets of at least `10 - depth` nested frames give the same
result: the recursion never needs more, on any heap, cyclic ones included. -/
lemma findFuel_congr :
    ∀ f1 f2 (st : List GNode) (ref d : Nat), 10 - d ≤ f1 → 10 - d ≤ f2 →
      findImagePartFuel st f1 ref d = findImagePartFuel st f2 ref d := by
  intro f1
  induction f1 with
  | zero =>
    intro f2 st ref d h1 h2
    have hd : d > 8 := by omega
    rw [findFuel_none_of_depth st f2 ref d hd]
    simp [findImagePartFuel]
  | succ f1' ih =>
    intro f2 st ref d h1 h2
    cases f2 with
    | zero =>
      have hd : d > 8 := by omega
      rw [findFuel_none_of_depth st (f1' + 1) ref d hd]
      simp [findImagePartFuel]
    | succ f2' =>
      by_cases hd : d > 8
      · rw [findFuel_none_of_depth st _ ref d hd, findFuel_none_of_depth st _ ref d hd]
      · have h1' : 10 - (d + 1) ≤ f1' := by omega
        have h2' : 10 - (d + 1) ≤ f2' := by omega
        have helem : ∀ j, findImagePartFuel st f1' j (d + 1)
            = findImagePartFuel st f2' j (d + 1) := fun j => ih f2' st j (d + 1) h1' h2'
        cases hg : st[ref]? with
        | none => simp [findImagePartFuel, hg]
        | some n =>
          cases n with
          | gnull => simp [findImagePartFuel, hg]
          | gleaf => simp [findImagePartFuel, hg]
          | gstr s => simp [findImagePartFuel, hg]
          | garr items =>
            simp only [findImagePartFuel, hg, hd, if_false]
            exact findFuelArr_congr st f1' f2' d helem items
          | gobj fields =>
            simp only [findImagePartFuel, hg, hd, if_false]
            cases hi : isImageNodeG st fields with
            | true => simp [hi]
            | false =>
              simp only [hi, Bool.false_eq_true, if_false]
              exact findFuelFields_congr st f1' f2' d helem fields

/-! ### Wrapper chains: payloads nested inside non-matching containers -/

/-- One wrapping layer around a value: a single-key object or a one-element
array. -/
inductive Wrap : Type where
  | okey (k : List Char) : Wrap
  | asingle : Wrap

def wrapVal : Wrap → JVal → JVal
  | .okey k, v => .obj [(k, v)]
  | .asingle, v => .arr [v]

/-- `nestW ws v` places `v` at depth `ws.length` under the wrapper layers
`ws`, outermost first. -/
def nestW : List Wrap → JVal → JVal
  | [], v => v
  | w :: ws, v => wrapVal w (nestW ws v)

lemma findImagePart_none_of_depth (v : JVal) (d : Nat) (h : d > 8) :
    findImagePart v d = none := by
  cases v <;> simp [findImagePart, h]

lemma findImagePart_wrap (w : Wrap) (x : JVal) (d : Nat) (hd : ¬ d > 8)
    (h0 : isImageNode (wrapVal w x) = false) :
    findImagePart (wrapVal w x) d = findImagePart x (d + 1) := by
  cases w with
  | okey k =>
    simp only [wrapVal] at h0 ⊢
    cases hx : findImagePart x (d + 1) with
    | none => simp [findImagePart, hd, h0, findImagePartFields, hx]
    | some r => simp [findImagePart, hd, h0, findImagePartFields, hx]
  | asingle =>
    simp only [wrapVal]
    cases hx : findImagePart x (d + 1) with
    | none => simp [findImagePart, hd, findImagePartArr, hx]
    | some r => simp [findImagePart, hd, findImagePartArr, hx]

/-- Searching below a chain of non-matching wrappers reaches the wrapped value
with the depth counter advanced by the chain length — unless that would pass
the bound, in which case the search gives up. -/
lemma findImagePart_nestW :
    ∀ (ws : List Wrap) (v : JVal) (d : Nat),
      (∀ n, n < ws.length → isImageNode (nestW (List.drop n ws) v) = false) →
      findImagePart (nestW ws v) d
        = if d + ws.length ≤ 8 then findImagePart v (d + ws.length) else none := by
  intro ws
  induction ws with
  | nil =>
    intro v d _
    simp only [nestW, List.length_nil, Nat.add_zero]
    by_cases hd : d ≤ 8
    · rw [if_pos hd]
    · rw [if_neg hd, findImagePart_none_of_depth v d (by omega)]
  | cons w rest ih =>
    intro v d hmatch
    have h0 : isImageNode (wrapVal w (nestW rest v)) = false := by
      have := hmatch 0 (by simp)
      simpa [nestW] using this
    have hrest : ∀ n, n < rest.length → isImageNode (nestW (List.drop n rest) v) = false := by
      intro n hn
      have := hmatch (n + 1) (by simp [hn])
      simpa using this
    by_cases hd : d > 8
    · rw [findImagePart_none_of_depth _ d hd,
        if_neg (by simp only [List.length_cons]; omega)]
    · rw [show nestW (w :: rest) v = wrapVal w (nestW rest v) from rfl,
        findImagePart_wrap w (nestW rest v) d hd h0, ih v (d + 1) hrest]
      simp only [List.length_cons]
      by_cases hA : d + (rest.length + 1) ≤ 8
      · rw [if_pos (show d + 1 + rest.length ≤ 8 by omega), if_pos hA,
          show d + 1 + rest.length = d + (rest.length + 1) from by omega]
      · rw [if_neg (show ¬ d + 1 + rest.length ≤ 8 by omega), if_neg hA]

/-! ### Control events of the batch -/

/-- The loop-control skeleton of the batch console output: per-entry progress
lines and the final completion line. -/
inductive Ctrl : Type where
  | proc (i : Nat) : Ctrl
  | done : Ctrl
deriving DecidableEq

def ctrlOf : Event → Option Ctrl
  | .processing i => some (.proc i)
  | .completed => some .done
  | _ => none

/-- Whatever the entry's outcome — including every failure mode — its own
events contain no control events. -/
lemma ctrlOf_entryEvents (i : Nat) (e : Entry) (env : EntryEnv) :
    (entryEvents i e env).filterMap ctrlOf = [] := by
  unfold entryEvents
  cases hg : env.gen with
  | error m => simp [ctrlOf]
  | ok resp =>
    cases hx : extractImagePart resp with
    | none => simp [hx, ctrlOf]
    | some o =>
      cases o with
      | none => simp [hx, ctrlOf]
      | some part =>
        cases hdo : dataOk part with
        | false => simp [hx, hdo, ctrlOf]
        | true =>
          cases hs : env.sharpLoad with
          | error m => simp [hx, hdo, ctrlOf]
          | ok u =>
            cases hc : env.convert with
            | error m => simp [hx, hdo, hc, ctrlOf]
            | ok bytes => simp [hx, hdo, hc, ctrlOf]

lemma ctrlOf_processEntry (i : Nat) (e : Entry) (env : EntryEnv) :
    (processEntry i e env).filterMap ctrlOf = [Ctrl.proc i] := by
  simp [processEntry, List.filterMap_cons, ctrlOf, ctrlOf_entryEvents]

/-- Events classified as a written output file. -/
def isFileEvent : Event → Bool
  | .fileWritten _ _ => true
  | _ => false

/-- Events classified as a per-entry failure diagnostic. -/
def isDiagEvent : Event → Bool
  | .genError _ => true
  | .warnNotFound => true
  | .sharpLoadError _ => true
  | .convertError _ => true
  | _ => false

/-! ### Concrete values used to instantiate the claims -/

/-- A well-formed image part: `inlineData.mimeType = "image/png"`,
`inlineData.data` a base64 string. -/
def partW : JVal :=
  .obj [(inlineDataKey, .obj [(mimeTypeKey, .str (strL "image/png")),
                              (dataKey, .str (strL "QUJD"))])]

/-- A response of the expected shape: `candidates[0].content.parts = [partW]`. -/
def respW : JVal :=
  .obj [(candidatesKey, .arr [.obj [(contentKey, .obj [(partsKey, .arr [partW])])]])]

/-- An image node without a `data` field, enough to match the search
predicate. -/
def imgNodeW : JVal := .obj [(inlineDataKey, .obj [(mimeTypeKey, .str (strL "image/jpeg"))])]

def wsFive : List Wrap :=
  [.okey (strL "a"), .asingle, .okey (strL "b"), .asingle, .okey (strL "c")]

def wsNine : List Wrap :=
  wsFive ++ [.okey (strL "d"), .asingle, .okey (strL "e"), .asingle]

/-! ### The claims -/

/-- C2: the image payload extractor first attempts the direct path (first
candidate, then `content`, then `parts`, then the first part whose inline-data
media type starts with `image/`); only when that yields nothing does it run
the depth-bounded recursive traversal, and that traversal returns exactly the
first node satisfying the image predicate along the depth-bounded depth-first
pre-order visit (array elements in index order, object keys in enumeration
order). -/
theorem C2_direct_path_then_bounded_preorder :
    (∀ resp p, directFind resp = some (some p) → extractImagePart resp = some (some p)) ∧
    (∀ resp, directFind resp = some none →
      extractImagePart resp = some (findImagePart resp 0)) ∧
    (∀ v d, findImagePart v d = (visitedNodes v d).find? isImageNode) := by
  refine ⟨?_, ?_, fun v d => findImagePart_eq_visited v d⟩
  · intro resp p h
    simp [extractImagePart, h]
  · intro resp h
    simp [extractImagePart, h]

/-- C2 witness: on a response of the expected shape the direct path finds the
part and the extractor returns exactly it. -/
theorem C2_direct_path_witness :
    directFind respW = some (some partW) ∧ extractImagePart respW = some (some partW) :=
  ⟨rfl, C2_direct_path_then_bounded_preorder.1 respW partW rfl⟩

/-- C3: a matching payload behind 5 non-matching wrapper layers (response
root at depth 0) is found by the structural search; behind 9 layers it is
not. -/
theorem C3_depth5_found_depth9_not (v : JVal) (ws5 ws9 : List Wrap)
    (h5len : ws5.length = 5) (h9len : ws9.length = 9)
    (h5 : ∀ n, n < ws5.length → isImageNode (nestW (List.drop n ws5) v) = false)
    (h9 : ∀ n, n < ws9.length → isImageNode (nestW (List.drop n ws9) v) = false)
    (hv : isImageNode v = true) :
    findImagePart (nestW ws5 v) 0 = some v ∧ findImagePart (nestW ws9 v) 0 = none := by
  constructor
  · rw [findImagePart_nestW ws5 v 0 h5, h5len]
    rw [if_pos (by omega)]
    cases v with
    | null => simp [isImageNode] at hv
    | bool b => simp [isImageNode] at hv
    | num n => simp [isImageNode] at hv
    | str s => simp [isImageNode] at hv
    | arr xs => simp [isImageNode] at hv
    | obj fields => simp [findImagePart, hv]
  · rw [findImagePart_nestW ws9 v 0 h9, h9len, if_neg (by omega)]

/-- C3 witness: a concrete mixed object/array wrapper chain of length 5
succeeds and one of length 9 fails. -/
theorem C3_depth_witness :
    isImageNode imgNodeW = true ∧
    findImagePart (nestW wsFive imgNodeW) 0 = some imgNodeW ∧
    findImagePart (nestW wsNine imgNodeW) 0 = none := by
  refine ⟨by decide, ?_⟩
  exact C3_depth5_found_depth9_not imgNodeW wsFive wsNine (by decide) (by decide)
    (by decide) (by decide) (by decide)

/-- C5 counterexample: the template `"a.jpg.png"` resolves to `"a.jpg.jpg"`,
which ends in the required extension twice, so the resolver's output does not
end in `".jpg"` exactly once. -/
theorem C5_counterexample :
    resolveFileNameGen 0 (some (strL "a.jpg.png")) 1700000000000 = strL "a.jpg.jpg" ∧
    strL ".jpg.jpg" <:+ resolveFileNameGen 0 (some (strL "a.jpg.png")) 1700000000000 := by
  constructor <;> decide

/-- C5 (amended): for every entry index, requested filename template (or
none) and timestamp, the resolver's output ends in the required extension
`".jpg"` up to ASCII case — but not necessarily exactly once, and an already
present upper-case `".JPG"` is kept as is. -/
theorem C5_resolved_name_ends_jpg_ci (i : Nat) (req : Option (List Char)) (now : Nat) :
    jpgExt <:+ lowerL (resolveFileNameGen i req now) := by
  cases req with
  | none =>
    simp only [resolveFileNameGen]
    exact jpg_suffix_lower_append _
  | some s =>
    simp only [resolveFileNameGen]
    split
    · exact ensureJpg_lower_suffix _
    · exact jpg_suffix_lower_append _

/-- C6: the extension-fixing rule is idempotent: applying it twice yields the
same filename as applying it once. -/
theorem C6_extension_rule_idempotent (s : List Char) :
    ensureJpg (ensureJpg s) = ensureJpg s :=
  ensureJpg_idem s

/-- C7: with a configured run identifier, a template-derived filename gets the
`SERIAL_` segment prepended unless it already starts with that exact prefix;
in particular `"ruler.png"` under serial `"run1"` resolves to
`"run1_ruler.jpg"`. -/
theorem C7_serial_prepended_unless_present (serial s : List Char) (i now : Nat)
    (hser : serial ≠ []) (hs : s ≠ []) :
    (¬ (serial ++ strL "_") <+: templateName s now →
      resolveFileNameSerial serial i (some s) now = serial ++ strL "_" ++ templateName s now) ∧
    ((serial ++ strL "_") <+: templateName s now →
      resolveFileNameSerial serial i (some s) now = templateName s now) ∧
    resolveFileNameSerial (strL "run1") 0 (some (strL "ruler.png")) 1700000000000
      = strL "run1_ruler.jpg" := by
  refine ⟨?_, ?_, by decide⟩
  · intro hnp
    simp only [resolveFileNameSerial]
    rw [if_pos hs, if_pos ⟨hser, hnp⟩]
  · intro hp
    simp only [resolveFileNameSerial]
    rw [if_pos hs, if_neg (by simp [hp])]

/-- C7 witness: the spec's example instance. -/
theorem C7_serial_witness :
    resolveFileNameSerial (strL "run1") 0 (some (strL "ruler.png")) 1700000000000
      = strL "run1_ruler.jpg" :=
  (C7_serial_prepended_unless_present (strL "run1") (strL "ruler.png") 0 1700000000000
    (by decide) (by decide)).2.2

/-- C8: with no filename template the resolver synthesizes
`image_{index+1}_{serialSegment}{timestamp}.jpg` (1-based index, serial
segment empty when no run identifier is configured); in particular index 0,
empty serial and timestamp 1700000000000 give `"image_1_1700000000000.jpg"`
— in both the current script and the older variant. -/
theorem C8_default_name_synthesis :
    (∀ (serial : List Char) (i now : Nat),
      resolveFileNameSerial serial i none now
        = strL "image_" ++ natStr (i + 1) ++ strL "_"
          ++ (if serial ≠ [] then serial ++ strL "_" else []) ++ natStr now ++ jpgExt) ∧
    resolveFileNameSerial [] 0 none 1700000000000 = strL "image_1_1700000000000.jpg" ∧
    resolveFileNameGen 0 none 1700000000000 = strL "image_1_1700000000000.jpg" := by
  refine ⟨fun serial i now => rfl, by decide, by decide⟩

/-- Every entry emits exactly one outcome event, and that event is a written
file exactly when it is not a failure diagnostic. -/
lemma entryEvents_shape (i : Nat) (e : Entry) (env : EntryEnv) :
    ∃ ev, entryEvents i e env = [ev] ∧ isFileEvent ev = !isDiagEvent ev := by
  cases hg : env.gen with
  | error m => exact ⟨.genError m, by simp [entryEvents, hg], rfl⟩
  | ok resp =>
    cases hx : extractImagePart resp with
    | none => exact ⟨.genError typeErrorMsg, by simp [entryEvents, hg, hx], rfl⟩
    | some o =>
      cases o with
      | none => exact ⟨.warnNotFound, by simp [entryEvents, hg, hx], rfl⟩
      | some part =>
        cases hdo : dataOk part with
        | false => exact ⟨.genError typeErrorMsg, by simp [entryEvents, hg, hx, hdo], rfl⟩
        | true =>
          cases hs : env.sharpLoad with
          | error m =>
            exact ⟨.sharpLoadError m, by simp [entryEvents, hg, hx, hdo, hs], rfl⟩
          | ok u =>
            cases hc : env.convert with
            | error m =>
              exact ⟨.convertError m, by simp [entryEvents, hg, hx, hdo, hs, hc], rfl⟩
            | ok bytes =>
              exact ⟨.fileWritten (resolveFileNameGen i (requestedFilenameOf e) env.now) bytes,
                by simp [entryEvents, hg, hx, hdo, hs, hc], rfl⟩

/-- C1 (amended): per prompt entry, exactly one of {output file written,
failure diagnostic logged} occurs; a failed extraction produces zero files and
a logged warning; a successfully extracted payload yields exactly one file
when its data decodes and post-processing succeeds (but zero files plus a
logged diagnostic when decoding or post-processing fails); and a file is
never written without a successful extraction. -/
theorem C1_file_xor_diagnostic_per_entry (i : Nat) (e : Entry) (env : EntryEnv) :
    (((processEntry i e env).countP isFileEvent = 1
        ∧ (processEntry i e env).countP isDiagEvent = 0)
      ∨ ((processEntry i e env).countP isFileEvent = 0
        ∧ (processEntry i e env).countP isDiagEvent = 1)) ∧
    (∀ resp, env.gen = .ok resp → extractImagePart resp = some none →
      (processEntry i e env).countP isFileEvent = 0
        ∧ Event.warnNotFound ∈ processEntry i e env) ∧
    (∀ resp part bytes, env.gen = .ok resp → extractImagePart resp = some (some part) →
      dataOk part = true → env.sharpLoad = .ok () → env.convert = .ok bytes →
      (processEntry i e env).countP isFileEvent = 1) ∧
    (∀ name bytes, Event.fileWritten name bytes ∈ processEntry i e env →
      ∃ resp part, env.gen = .ok resp ∧ extractImagePart resp = some (some part)
        ∧ dataOk part = true) := by
  obtain ⟨ev, hev, hfd⟩ := entryEvents_shape i e env
  have hp : processEntry i e env = [.processing i, ev] := by
    simp [processEntry, hev]
  refine ⟨?_, ?_, ?_, ?_⟩
  · have hpf : isFileEvent (.processing i) = false := rfl
    have hpd : isDiagEvent (.processing i) = false := rfl
    cases hd : isDiagEvent ev with
    | false =>
      left
      have hf : isFileEvent ev = true := by rw [hfd, hd]; rfl
      simp [hp, List.countP_cons, List.countP_nil, hpf, hpd, hf, hd]
    | true =>
      right
      have hf : isFileEvent ev = false := by rw [hfd, hd]; rfl
      simp [hp, List.countP_cons, List.countP_nil, hpf, hpd, hf, hd]
  · intro resp hg hx
    have he : entryEvents i e env = [.warnNotFound] := by
      simp [entryEvents, hg, hx]
    have hp2 : processEntry i e env = [.processing i, .warnNotFound] := by
      simp [processEntry, he]
    simp [hp2, List.countP_cons, List.countP_nil, isFileEvent]
  · intro resp part bytes hg hx hdo hs hc
    have he : entryEvents i e env
        = [.fileWritten (resolveFileNameGen i (requestedFilenameOf e) env.now) bytes] := by
      simp [entryEvents, hg, hx, hdo, hs, hc]
    have hp2 : processEntry i e env
        = [.processing i,
           .fileWritten (resolveFileNameGen i (requestedFilenameOf e) env.now) bytes] := by
      simp [processEntry, he]
    simp [hp2, List.countP_cons, List.countP_nil, isFileEvent]
  · intro name bytes hmem
    cases hg : env.gen with
    | error m =>
      rw [show processEntry i e env = [.processing i, .genError m] from by
        simp [processEntry, entryEvents, hg]] at hmem
      simp at hmem
    | ok resp =>
      cases hx : extractImagePart resp with
      | none =>
        rw [show processEntry i e env = [.processing i, .genError typeErrorMsg] from by
          simp [processEntry, entryEvents, hg, hx]] at hmem
        simp at hmem
      | some o =>
        cases o with
        | none =>
          rw [show processEntry i e env = [.processing i, .warnNotFound] from by
            simp [processEntry, entryEvents, hg, hx]] at hmem
          simp at hmem
        | some part =>
          cases hdo : dataOk part with
          | false =>
            rw [show processEntry i e env = [.processing i, .genError typeErrorMsg] from by
              simp [processEntry, entryEvents, hg, hx, hdo]] at hmem
            simp at hmem
          | true =>
            cases hs : env.sharpLoad with
            | error m =>
              rw [show processEntry i e env = [.processing i, .sharpLoadError m] from by
                simp [processEntry, entryEvents, hg, hx, hdo, hs]] at hmem
              simp at hmem
            | ok u =>
              cases hc : env.convert with
              | error m =>
                rw [show processEntry i e env = [.processing i, .convertError m] from by
                  simp [processEntry, entryEvents, hg, hx, hdo, hs, hc]] at hmem
                simp at hmem
              | ok bytes' => exact ⟨resp, part, rfl, hx, hdo⟩

def entryC1 : Entry := .objEntry (strL "x") none

/-- The conversion step of the sharp pipeline fails for this entry. -/
def envC1 : EntryEnv := ⟨.ok respW, .ok (), .error (strL "conversion failed"), 1700000000000⟩

/-- The whole pipeline succeeds for this entry. -/
def envC1ok : EntryEnv := ⟨.ok respW, .ok (), .ok [1, 2, 3], 1700000000000⟩

/-- C1 counterexample: an entry whose payload is successfully extracted but
whose post-processing fails writes zero files (and logs one diagnostic), so
"exactly one output file is written per successfully-extracted image payload"
fails as stated. -/
theorem C1_counterexample :
    envC1.gen = Except.ok respW ∧
    extractImagePart respW = some (some partW) ∧
    (processEntry 0 entryC1 envC1).countP isFileEvent = 0 ∧
    (processEntry 0 entryC1 envC1).countP isDiagEvent = 1 :=
  ⟨rfl, rfl, rfl, rfl⟩

/-- C1 witness: a fully successful entry writes exactly one file. -/
theorem C1_entry_witness :
    extractImagePart respW = some (some partW) ∧
    (processEntry 0 entryC1 envC1ok).countP isFileEvent = 1 :=
  ⟨rfl, (C1_file_xor_diagnostic_per_entry 0 entryC1 envC1ok).2.2.1 respW partW [1, 2, 3]
    rfl rfl rfl rfl rfl⟩

/-- C4: per-entry errors are isolated — whatever each entry's generation,
extraction and post-processing outcomes are, the batch processes every entry
of the prompt list in index order and always ends with the completion
message. -/
theorem C4_batch_isolation_and_completion (entries : List Entry) (envs : Nat → EntryEnv) :
    (generateAndSaveImages entries envs).filterMap ctrlOf
      = (List.range entries.length).map Ctrl.proc ++ [Ctrl.done] ∧
    (generateAndSaveImages entries envs).getLast? = some Event.completed := by
  constructor
  · unfold generateAndSaveImages
    rw [List.filterMap_append, List.filterMap_flatMap]
    have h2 : (entries.enum.flatMap fun p => (processEntry p.1 p.2 (envs p.1)).filterMap ctrlOf)
        = entries.enum.flatMap fun p => [Ctrl.proc p.1] := by
      simp only [ctrlOf_processEntry]
    rw [h2]
    have h3 : ∀ (l : List (Nat × Entry)), (l.flatMap fun p => [Ctrl.proc p.1])
        = l.map fun p => Ctrl.proc p.1 := by
      intro l
      induction l with
      | nil => rfl
      | cons a t ih => simp only [List.flatMap_cons, List.map_cons, ih, List.singleton_append]
    rw [h3]
    have h4 : (entries.enum.map fun p => Ctrl.proc p.1)
        = (entries.enum.map Prod.fst).map Ctrl.proc := by
      rw [List.map_map]
      rfl
    rw [h4, List.enum_map_fst]
    simp [ctrlOf]
  · exact List.getLast?_concat _

/-- C9: the inspector always prints the environment summary lines
(credentials path, API-key presence as a YES/NO bit only, run identifier)
before any attempt to read or parse the credentials file; and a read/parse
failure is reported as a single diagnostic line after which the script still
prints its closing usage hints. -/
theorem C9_inspector_summary_first_failure_isolated (env : CredEnv)
    (fo : Except (List Char) CredJson) :
    ((checkCreds env fo).take 5
      = [.envHeader, .gacLine (displayOr env.gac notSetMsg),
         .keyLine (truthyEnv env.geminiKey), .serialLine (displayOr env.serial notSetMsg),
         .blank]) ∧
    (∀ p m, env.gac = some p → p ≠ [] → fo = .error m →
      checkCreds env fo
        = [.envHeader, .gacLine (displayOr env.gac notSetMsg),
           .keyLine (truthyEnv env.geminiKey), .serialLine (displayOr env.serial notSetMsg),
           .blank, .readAttempt p, .readError m,
           .blank, .hintLine 1, .hintLine 2, .hintLine 3, .hintLine 4]) := by
  constructor
  · simp [checkCreds]
  · intro p m hgac hp hfo
    subst hfo
    simp [checkCreds, hgac, hp]

def credEnvW : CredEnv := ⟨some (strL "creds.json"), some (strL "k"), none⟩

/-- C9 witness: a malformed credentials file yields the summary lines, one
parse-error line, and the closing hints, in that order. -/
theorem C9_inspector_witness :
    checkCreds credEnvW (.error (strL "Unexpected token"))
      = [.envHeader, .gacLine (strL "creds.json"), .keyLine true, .serialLine notSetMsg,
         .blank, .readAttempt (strL "creds.json"), .readError (strL "Unexpected token"),
         .blank, .hintLine 1, .hintLine 2, .hintLine 3, .hintLine 4] := by
  have h := (C9_inspector_summary_first_failure_isolated credEnvW
    (.error (strL "Unexpected token"))).2 (strL "creds.json") (strL "Unexpected token")
    rfl (by decide) rfl
  simpa [credEnvW, displayOr, truthyEnv] using h

/-- C10: the structural search terminates on every heap value, cyclic
structures included: each nested call increases the explicit depth counter by
one and any call at depth above 8 (or on a missing/`null` node) returns at
once, so `10 - depth` nested frames always suffice and the result does not
depend on any extra fuel. -/
theorem C10_bounded_recursion_terminates :
    (∀ (st : List GNode) (ref d f1 f2 : Nat), 10 - d ≤ f1 → 10 - d ≤ f2 →
      findImagePartFuel st f1 ref d = findImagePartFuel st f2 ref d) ∧
    (∀ (st : List GNode) (ref d f : Nat), d > 8 → findImagePartFuel st f ref d = none) :=
  ⟨fun st ref d f1 f2 h1 h2 => findFuel_congr f1 f2 st ref d h1 h2,
   fun st ref d f h => findFuel_none_of_depth st f ref d h⟩

/-- A one-node cyclic heap: the object's only field refers back to itself. -/
def cyclicStore : List GNode := [.gobj [(strL "self", 0)]]

/-- C10 witness: on the cyclic heap the search gives the same result with
fuel 10 and fuel 99 from the root, and returns nothing at depth 9. -/
theorem C10_termination_witness :
    findImagePartFuel cyclicStore 10 0 0 = findImagePartFuel cyclicStore 99 0 0 ∧
    findImagePartFuel cyclicStore 10 0 9 = none :=
  ⟨C10_bounded_recursion_terminates.1 cyclicStore 0 0 10 99 (by decide) (by decide),
   C10_bounded_recursion_terminates.2 cyclicStore 0 9 10 (by decide)⟩
